import Mathlib

/-!
Verification development for a live-classroom streaming origin server.

The model is a shallow embedding of the JavaScript sources:
* `src/server/index.js` — Socket.IO room hub handlers and the RTMP
  orchestrator (postPublish / donePublish);
* `src/server/transcoder.js` — startTranscoding / stopTranscoding
  (supervisor of the external ffmpeg child process);
* the earlier monolithic server file (inline ffmpeg variant) — source of
  the close-poll and typing handlers and of the donePublish HLS cleanup
  setTimeout, which the current index.js does not have.

JavaScript `Map` objects are modelled as association lists with the same
insertion-order semantics; `Date.now()` is a natural-number clock carried
in the state; `uuidv4()` freshness is modelled by a counter; `setTimeout`
callbacks are modelled as pending timer records that a trace can fire
once their deadline has passed.
-/

namespace LiveStream

/-- Models JavaScript `String.prototype.startsWith` (character-list prefix). -/
def strStartsWith (s p : String) : Bool := p.data.isPrefixOf s.data

/-- Models JavaScript `String.prototype.endsWith` (character-list suffix). -/
def strEndsWith (s p : String) : Bool := p.data.isSuffixOf s.data

/-- Infix test on character lists, structural recursion. -/
def listHasInfix (pat : List Char) : List Char → Bool
  | [] => pat.isEmpty
  | c :: rest => pat.isPrefixOf (c :: rest) || listHasInfix pat rest

/-- Models JavaScript `String.prototype.includes`. -/
def strContains (s p : String) : Bool := listHasInfix p.data s.data

/-- Helper for `key.split(sep).pop()`: characters of the last
`'/'`-separated segment, accumulating the current segment. -/
def lastSegmentAux : List Char → List Char → List Char
  | [], acc => acc
  | c :: rest, acc =>
      if c = '/' then lastSegmentAux rest [] else lastSegmentAux rest (acc ++ [c])

/-- Models `streamPath.split('/').pop()` as used by the publish handlers. -/
def lastSegment (s : String) : String := ⟨lastSegmentAux s.data []⟩

/-- Models JavaScript `Array.prototype.slice(-n)` (the last `n` elements). -/
def takeLast (n : Nat) (l : List α) : List α := l.drop (l.length - n)

/-- Replace the first element satisfying `p` by its image under `f`;
models an in-place mutation of the object found by `Array.prototype.find`. -/
def updateFirst (p : α → Bool) (f : α → α) : List α → List α
  | [] => []
  | a :: rest => if p a then f a :: rest else a :: updateFirst p f rest

/-! ### Association-list maps, modelling JavaScript `Map` -/

/-- `Map.get(k)`: the binding of the first entry with the key. States
built by `mapSet` and `mapDelete` never hold a key twice. -/
def mapGet : List (String × α) → String → Option α
  | [], _ => none
  | e :: rest, k => if e.1 == k then some e.2 else mapGet rest k

/-- `Map.has(k)`. -/
def mapHas (m : List (String × α)) (k : String) : Bool :=
  (mapGet m k).isSome

/-- `Map.set(k, v)`: overwrites in place when the key is present
(JavaScript `Map` keeps the original insertion position), appends
otherwise. -/
def mapSet : List (String × α) → String → α → List (String × α)
  | [], k, v => [(k, v)]
  | e :: rest, k, v => if e.1 == k then (k, v) :: rest else e :: mapSet rest k v

/-- `Map.delete(k)`. -/
def mapDelete : List (String × α) → String → List (String × α)
  | [], _ => []
  | e :: rest, k => if e.1 == k then mapDelete rest k else e :: mapDelete rest k

/-- The values of a map, in insertion order (`Array.from(m.values())`). -/
def mapValues (m : List (String × α)) : List α := m.map (·.2)

/-! ### Room hub data model (index.js, in-memory data stores) -/

/-- A participant record as stored in `room.participants`. -/
structure Participant where
  socketId : String
  username : String
  role : String
  joinedAt : Nat
  handRaised : Bool
deriving Repr, DecidableEq

/-- A chat message record. `id` models a fresh `uuidv4()`. -/
structure ChatMessage where
  id : Nat
  username : String
  role : String
  message : String
  timestamp : Nat
deriving Repr, DecidableEq

/-- One poll option: `{ id, text, votes }`. -/
structure PollOption where
  id : Nat
  text : String
  votes : Nat
deriving Repr, DecidableEq

/-- A poll. `voters` models the JavaScript `Set` of socket ids (insertion
order list; the vote handler only inserts ids absent from it). `status`
is the literal string `"active"` or `"closed"`. -/
structure Poll where
  id : Nat
  question : String
  options : List PollOption
  voters : List String
  status : String
  createdAt : Nat
  duration : Option Nat
deriving Repr, DecidableEq

/-- A hand-raise queue entry. -/
structure HandRaise where
  socketId : String
  username : String
  timestamp : Nat
deriving Repr, DecidableEq

/-- A room, as built by `createRoom` in index.js. `h265Enabled` is the
single field of `streamSettings`. -/
structure Room where
  streamKey : String
  participants : List (String × Participant)
  messages : List ChatMessage
  polls : List Poll
  handRaises : List HandRaise
  h265Enabled : Bool
deriving Repr, DecidableEq

/-- `createRoom(streamKey)` from index.js. -/
def createRoom (streamKey : String) : Room :=
  { streamKey := streamKey
    participants := []
    messages := []
    polls := []
    handRaises := []
    h265Enabled := false }

/-- The per-connection `socket.data` record set by the join handler. -/
structure SocketData where
  streamKey : String
  username : String
  role : String
deriving Repr, DecidableEq

/-! ### Transcoder supervisor model (transcoder.js) -/

/-- A spawned ffmpeg child process. `killedFlag` models the Node
`ChildProcess.killed` property: it becomes true as soon as `kill()` has
successfully sent any signal, and does not say whether the process has
terminated. -/
structure ChildProcess where
  pid : Nat
  killedFlag : Bool
deriving Repr, DecidableEq

/-- An entry of the `activeProcesses` map in transcoder.js:
`{ process, recordingPath }` plus the snapshotted H.265 flag it was
started with. -/
structure ProcEntry where
  pid : Nat
  recordingPath : String
  enableH265 : Bool
deriving Repr, DecidableEq

/-- State of the transcoder module. `signalLog` records every signal
sent through `process.kill`, in order; `killTimers` holds the pending
5-second force-kill checks scheduled by `stopTranscoding` as
`(pid, fire time)`. The asynchronous on-close callback of the child is
not modelled (no claim mentions it). -/
structure TransState where
  procs : List ChildProcess
  activeProcesses : List (String × ProcEntry)
  signalLog : List (Nat × String)
  killTimers : List (Nat × Nat)
  nextPid : Nat
deriving Repr, DecidableEq

/-- The empty transcoder state (module load). -/
def TransState.init : TransState :=
  { procs := [], activeProcesses := [], signalLog := [], killTimers := [], nextPid := 0 }

/-- `proc.kill(sig)`: appends to the signal log and sets the Node
`killed` flag of the target process. -/
def sendSignal (ts : TransState) (pid : Nat) (sig : String) : TransState :=
  { ts with
    procs := ts.procs.map (fun p => if p.pid = pid then { p with killedFlag := true } else p)
    signalLog := ts.signalLog ++ [(pid, sig)] }

/-- The archival path built inside `buildFFmpegArgs`:
`<recordingDir>/<key>_<Date.now()>.flv` (directory prefix omitted). -/
def recordingPathFor (streamKey : String) (now : Nat) : String :=
  streamKey ++ "_" ++ toString now ++ ".flv"

/-- `startTranscoding(streamKey, enableH265)` from transcoder.js: builds
the recording path, spawns one ffmpeg process, stores
`{ process, recordingPath }` under the key in `activeProcesses`, and
returns the recording path. The delayed master-playlist write and the
stderr tail only touch the filesystem and the log. -/
def startTranscoding (ts : TransState) (streamKey : String) (enableH265 : Bool) (now : Nat) :
    String × TransState :=
  let recordingPath := recordingPathFor streamKey now
  let pid := ts.nextPid
  (recordingPath,
   { ts with
     procs := ts.procs ++ [{ pid := pid, killedFlag := false }]
     activeProcesses := mapSet ts.activeProcesses streamKey
       { pid := pid, recordingPath := recordingPath, enableH265 := enableH265 }
     nextPid := pid + 1 })

/-- `stopTranscoding(streamKey)` from transcoder.js: when an entry
exists, send SIGINT, schedule the force-kill check 5 seconds out, delete
the entry, and return its recording path; otherwise return null. -/
def stopTranscoding (ts : TransState) (streamKey : String) (now : Nat) :
    Option String × TransState :=
  match mapGet ts.activeProcesses streamKey with
  | some entry =>
      let ts1 := sendSignal ts entry.pid "SIGINT"
      (some entry.recordingPath,
       { ts1 with
         killTimers := ts1.killTimers ++ [(entry.pid, now + 5)]
         activeProcesses := mapDelete ts1.activeProcesses streamKey })
  | none => (none, ts)

/-- The body of the 5-second timeout in `stopTranscoding`:
`if (!entry.process.killed) entry.process.kill('SIGKILL')`. Firing
consumes the first pending timer for the pid whose deadline has passed;
a timer that is not pending or not due does nothing. -/
def fireKillTimer (ts : TransState) (pid : Nat) (now : Nat) : TransState :=
  match ts.killTimers.find? (fun t => t.1 == pid && decide (t.2 ≤ now)) with
  | some timer =>
      let ts1 := { ts with
        killTimers := (ts.killTimers.erase timer) }
      match ts1.procs.find? (fun p => p.pid == pid) with
      | some p => if p.killedFlag then ts1 else sendSignal ts1 pid "SIGKILL"
      | none => ts1
  | none => ts

/-! ### Server state (index.js in-memory stores plus timers) -/

/-- A row of the `activeStreams` map set by the postPublish handler. -/
structure ActiveStream where
  startTime : Nat
  publisherIp : String
  recordingPath : String
deriving Repr, DecidableEq

/-- A pending poll auto-close `setTimeout` from the create-poll handler.
The closure captures the poll object and the stream key; firing is keyed
by `(streamKey, pollId)` here. -/
structure PollTimer where
  streamKey : String
  pollId : Nat
  fireAt : Nat
deriving Repr, DecidableEq

/-- The whole server state: the two in-memory stores of index.js, the
per-socket `socket.data` records, the transcoder module state, the
pending poll timers, the uuid freshness counter, and the clock. -/
structure ServerState where
  rooms : List (String × Room)
  activeStreams : List (String × ActiveStream)
  socketData : List (String × SocketData)
  trans : TransState
  pollTimers : List PollTimer
  nextId : Nat
  now : Nat
deriving Repr, DecidableEq

/-- Server state at process start. -/
def initState : ServerState :=
  { rooms := [], activeStreams := [], socketData := [], trans := TransState.init
    pollTimers := [], nextId := 0, now := 0 }

/-- Events the server emits over Socket.IO, with the payload parts the
claims mention. `roomState` goes to the joining socket only, the others
to the Socket.IO room (for `participantJoined`, `participantLeft` and
`userTyping` the sender is excluded, which no claim depends on). -/
inductive Event where
  | roomState (sid : String) (messages : List ChatMessage) (polls : List Poll)
      (participants : List Participant) (h265Enabled : Bool)
  | participantJoined (room : String) (p : Participant) (totalCount : Nat)
  | chatMessage (room : String) (m : ChatMessage)
  | newPoll (room : String) (p : Poll)
  | pollClosed (room : String) (pollId : Nat)
  | pollUpdated (room : String) (pollId : Nat) (options : List PollOption) (totalVotes : Nat)
  | handRaised (room : String) (sid : String) (username : String) (queue : List HandRaise)
  | handLowered (room : String) (sid : String) (queue : List HandRaise)
  | streamSettingsUpdated (room : String) (h265Enabled : Bool)
  | userTyping (room : String) (username : String) (isTyping : Bool)
  | participantLeft (room : String) (username : String) (totalCount : Nat)
deriving Repr, DecidableEq

/-- The join-room handler. It has no guard: it lazily creates the room,
inserts the participant (with the `|| 'Anonymous'` and `|| 'student'`
defaults), records `socket.data`, sends the room snapshot to the sender
and announces the join to the others. -/
def handleJoinRoom (st : ServerState) (sid streamKey username role : String) :
    ServerState × List Event :=
  let rooms0 := if mapHas st.rooms streamKey then st.rooms
                else mapSet st.rooms streamKey (createRoom streamKey)
  match mapGet rooms0 streamKey with
  | none => (st, [])
  | some room =>
    let p : Participant :=
      { socketId := sid
        username := if username == "" then "Anonymous" else username
        role := if role == "" then "student" else role
        joinedAt := st.now
        handRaised := false }
    let room1 := { room with participants := mapSet room.participants sid p }
    ({ st with
        rooms := mapSet rooms0 streamKey room1
        socketData := mapSet st.socketData sid
          { streamKey := streamKey, username := username, role := role } },
     [Event.roomState sid (takeLast 50 room1.messages)
        (room1.polls.filter (fun q => q.status == "active"))
        (mapValues room1.participants) room1.h265Enabled,
      Event.participantJoined streamKey p room1.participants.length])

/-- The chat-message handler: guarded on a joined socket whose recorded
stream key names an existing room; appends a stamped message and
broadcasts it. -/
def handleChatMessage (st : ServerState) (sid message : String) :
    ServerState × List Event :=
  match mapGet st.socketData sid with
  | none => (st, [])
  | some d =>
    if d.streamKey == "" then (st, []) else
    match mapGet st.rooms d.streamKey with
    | none => (st, [])
    | some room =>
      let m : ChatMessage :=
        { id := st.nextId, username := d.username, role := d.role
          message := message, timestamp := st.now }
      ({ st with
          rooms := mapSet st.rooms d.streamKey { room with messages := room.messages ++ [m] }
          nextId := st.nextId + 1 },
       [Event.chatMessage d.streamKey m])

/-- The create-poll handler (teacher only): builds an `active` poll with
zeroed options and an empty voter set, pushes it, broadcasts `new-poll`,
and, when `duration` is truthy, schedules the auto-close timeout. -/
def handleCreatePoll (st : ServerState) (sid question : String)
    (options : List String) (duration : Option Nat) : ServerState × List Event :=
  match mapGet st.socketData sid with
  | none => (st, [])
  | some d =>
    if d.streamKey == "" || d.role != "teacher" then (st, []) else
    match mapGet st.rooms d.streamKey with
    | none => (st, [])
    | some room =>
      let poll : Poll :=
        { id := st.nextId
          question := question
          options := (options.enum).map (fun oi =>
            { id := st.nextId + 1 + oi.1, text := oi.2, votes := 0 })
          voters := []
          status := "active"
          createdAt := st.now
          duration := duration }
      let timers := match duration with
        | some n => if n == 0 then st.pollTimers
                    else st.pollTimers ++ [{ streamKey := d.streamKey, pollId := poll.id
                                             fireAt := st.now + n }]
        | none => st.pollTimers
      ({ st with
          rooms := mapSet st.rooms d.streamKey { room with polls := room.polls ++ [poll] }
          nextId := st.nextId + 1 + options.length
          pollTimers := timers },
       [Event.newPoll d.streamKey poll])

/-- The vote-poll handler: rejects when the poll is missing or not
active, when the socket already voted, or when the option id is unknown;
otherwise increments the option and records the voter. -/
def handleVotePoll (st : ServerState) (sid : String) (pollId optionId : Nat) :
    ServerState × List Event :=
  match mapGet st.socketData sid with
  | none => (st, [])
  | some d =>
    if d.streamKey == "" then (st, []) else
    match mapGet st.rooms d.streamKey with
    | none => (st, [])
    | some room =>
      match room.polls.find? (fun q => q.id == pollId) with
      | none => (st, [])
      | some poll =>
        if poll.status != "active" then (st, []) else
        if poll.voters.contains sid then (st, []) else
        match poll.options.find? (fun o => o.id == optionId) with
        | none => (st, [])
        | some _ =>
          let voteFn : Poll → Poll := fun q =>
            { q with
              options := updateFirst (fun o => o.id == optionId)
                (fun o => { o with votes := o.votes + 1 }) q.options
              voters := q.voters ++ [sid] }
          let polls1 := updateFirst (fun q => q.id == pollId) voteFn room.polls
          let poll1 := voteFn poll
          ({ st with rooms := mapSet st.rooms d.streamKey { room with polls := polls1 } },
           [Event.pollUpdated d.streamKey pollId poll1.options poll1.voters.length])

/-- The close-poll handler (teacher only; present in the monolithic
server file, not in index.js): transitions an `active` poll to `closed`
and broadcasts `poll-closed`; an already-closed or unknown poll id is a
no-op. -/
def handleClosePoll (st : ServerState) (sid : String) (pollId : Nat) :
    ServerState × List Event :=
  match mapGet st.socketData sid with
  | none => (st, [])
  | some d =>
    if d.streamKey == "" || d.role != "teacher" then (st, []) else
    match mapGet st.rooms d.streamKey with
    | none => (st, [])
    | some room =>
      match room.polls.find? (fun q => q.id == pollId) with
      | none => (st, [])
      | some poll =>
        if poll.status == "active" then
          let polls1 := updateFirst (fun q => q.id == pollId)
            (fun q => { q with status := "closed" }) room.polls
          ({ st with rooms := mapSet st.rooms d.streamKey { room with polls := polls1 } },
           [Event.pollClosed d.streamKey pollId])
        else (st, [])

/-- The raise-hand handler: when the sender is a participant whose hand
is down, set the flag, append to the queue tail, and broadcast the
queue. -/
def handleRaiseHand (st : ServerState) (sid : String) : ServerState × List Event :=
  match mapGet st.socketData sid with
  | none => (st, [])
  | some d =>
    if d.streamKey == "" then (st, []) else
    match mapGet st.rooms d.streamKey with
    | none => (st, [])
    | some room =>
      match mapGet room.participants sid with
      | none => (st, [])
      | some p =>
        if p.handRaised then (st, []) else
        let entry : HandRaise := { socketId := sid, username := d.username, timestamp := st.now }
        let room1 := { room with
          participants := mapSet room.participants sid { p with handRaised := true }
          handRaises := room.handRaises ++ [entry] }
        ({ st with rooms := mapSet st.rooms d.streamKey room1 },
         [Event.handRaised d.streamKey sid d.username room1.handRaises])

/-- The lower-hand handler: when the sender is a participant whose hand
is raised, clear the flag, filter it out of the queue, and broadcast the
queue. -/
def handleLowerHand (st : ServerState) (sid : String) : ServerState × List Event :=
  match mapGet st.socketData sid with
  | none => (st, [])
  | some d =>
    if d.streamKey == "" then (st, []) else
    match mapGet st.rooms d.streamKey with
    | none => (st, [])
    | some room =>
      match mapGet room.participants sid with
      | none => (st, [])
      | some p =>
        if p.handRaised then
          let room1 := { room with
            participants := mapSet room.participants sid { p with handRaised := false }
            handRaises := room.handRaises.filter (fun h => h.socketId != sid) }
          ({ st with rooms := mapSet st.rooms d.streamKey room1 },
           [Event.handLowered d.streamKey sid room1.handRaises])
        else (st, [])

/-- The update-stream-settings handler (teacher only): stores the H.265
toggle on the room and broadcasts it. -/
def handleUpdateStreamSettings (st : ServerState) (sid : String) (h265Enabled : Bool) :
    ServerState × List Event :=
  match mapGet st.socketData sid with
  | none => (st, [])
  | some d =>
    if d.streamKey == "" || d.role != "teacher" then (st, []) else
    match mapGet st.rooms d.streamKey with
    | none => (st, [])
    | some room =>
      ({ st with rooms := mapSet st.rooms d.streamKey { room with h265Enabled := h265Enabled } },
       [Event.streamSettingsUpdated d.streamKey h265Enabled])

/-- The typing handler (monolithic server file): only guarded on a
truthy stream key; relays a transient indicator, no state change. -/
def handleTyping (st : ServerState) (sid : String) (isTyping : Bool) :
    ServerState × List Event :=
  match mapGet st.socketData sid with
  | none => (st, [])
  | some d =>
    if d.streamKey == "" then (st, []) else
    (st, [Event.userTyping d.streamKey d.username isTyping])

/-- The disconnect handler: removes the participant and its queue entry,
announces the departure, and deletes the room when it became empty. The
`activeStreams` table is not consulted. -/
def handleDisconnect (st : ServerState) (sid : String) : ServerState × List Event :=
  match mapGet st.socketData sid with
  | none => (st, [])
  | some d =>
    if d.streamKey == "" then (st, []) else
    match mapGet st.rooms d.streamKey with
    | none => (st, [])
    | some room =>
      let room1 := { room with
        participants := mapDelete room.participants sid
        handRaises := room.handRaises.filter (fun h => h.socketId != sid) }
      let rooms1 :=
        if room1.participants.length == 0 then mapDelete st.rooms d.streamKey
        else mapSet st.rooms d.streamKey room1
      ({ st with rooms := rooms1 },
       [Event.participantLeft d.streamKey d.username room1.participants.length])

/-- The H.265 policy read at publish start: the room's setting when a
room exists for the key, false otherwise. -/
def roomPolicy (st : ServerState) (streamKey : String) : Bool :=
  match mapGet st.rooms streamKey with
  | some room => room.h265Enabled
  | none => false

/-- The postPublish handler of index.js: when a stream path was
determined, derive the key (last path segment), read the H.265 policy
from the room (default false), start the transcoder, and record the
`activeStreams` row. There is no check whether a row already exists. -/
def handlePostPublish (st : ServerState) (streamPath publisherIp : String) :
    ServerState × List Event :=
  if streamPath == "" then (st, []) else
  let streamKey := lastSegment streamPath
  let h265Enabled := roomPolicy st streamKey
  let r := startTranscoding st.trans streamKey h265Enabled st.now
  ({ st with
      trans := r.2
      activeStreams := mapSet st.activeStreams streamKey
        { startTime := st.now, publisherIp := publisherIp, recordingPath := r.1 } },
   [])

/-- The donePublish handler of index.js: stop the transcoder and drop
the `activeStreams` row. No HLS cleanup is scheduled here. -/
def handleDonePublish (st : ServerState) (streamPath : String) :
    ServerState × List Event :=
  if streamPath == "" then (st, []) else
  let streamKey := lastSegment streamPath
  let r := stopTranscoding st.trans streamKey st.now
  ({ st with trans := r.2, activeStreams := mapDelete st.activeStreams streamKey }, [])

/-- The body of the auto-close `setTimeout` in create-poll: it sets the
captured poll's status to `"closed"` and emits `poll-closed`, with no
check whether the poll is already closed. Firing consumes the first
matching pending timer whose deadline has passed; the emit happens even
when the room no longer holds the poll. -/
def firePollTimer (st : ServerState) (streamKey : String) (pollId : Nat) :
    ServerState × List Event :=
  match st.pollTimers.find? (fun t =>
      t.streamKey == streamKey && t.pollId == pollId && decide (t.fireAt ≤ st.now)) with
  | none => (st, [])
  | some timer =>
    let rooms1 := match mapGet st.rooms streamKey with
      | some room =>
          let polls1 := updateFirst (fun q => q.id == pollId)
            (fun q => { q with status := "closed" }) room.polls
          mapSet st.rooms streamKey { room with polls := polls1 }
      | none => st.rooms
    ({ st with rooms := rooms1, pollTimers := st.pollTimers.erase timer },
     [Event.pollClosed streamKey pollId])

/-- A command of the combined model: a client message, a disconnect, an
RTMP publish event, a due timer firing, or the wall clock advancing. -/
inductive Cmd where
  | joinRoom (sid streamKey username role : String)
  | chatMessage (sid message : String)
  | createPoll (sid question : String) (options : List String) (duration : Option Nat)
  | votePoll (sid : String) (pollId optionId : Nat)
  | closePoll (sid : String) (pollId : Nat)
  | raiseHand (sid : String)
  | lowerHand (sid : String)
  | updateStreamSettings (sid : String) (h265Enabled : Bool)
  | typing (sid : String) (isTyping : Bool)
  | disconnect (sid : String)
  | postPublish (streamPath publisherIp : String)
  | donePublish (streamPath : String)
  | pollTimerFire (streamKey : String) (pollId : Nat)
  | killTimerFire (pid : Nat)
  | advance (d : Nat)
deriving Repr, DecidableEq

/-- One step of the server. -/
def step (st : ServerState) : Cmd → ServerState × List Event
  | Cmd.joinRoom sid streamKey username role => handleJoinRoom st sid streamKey username role
  | Cmd.chatMessage sid message => handleChatMessage st sid message
  | Cmd.createPoll sid question options duration => handleCreatePoll st sid question options duration
  | Cmd.votePoll sid pollId optionId => handleVotePoll st sid pollId optionId
  | Cmd.closePoll sid pollId => handleClosePoll st sid pollId
  | Cmd.raiseHand sid => handleRaiseHand st sid
  | Cmd.lowerHand sid => handleLowerHand st sid
  | Cmd.updateStreamSettings sid b => handleUpdateStreamSettings st sid b
  | Cmd.typing sid b => handleTyping st sid b
  | Cmd.disconnect sid => handleDisconnect st sid
  | Cmd.postPublish streamPath publisherIp => handlePostPublish st streamPath publisherIp
  | Cmd.donePublish streamPath => handleDonePublish st streamPath
  | Cmd.pollTimerFire streamKey pollId => firePollTimer st streamKey pollId
  | Cmd.killTimerFire pid => ({ st with trans := fireKillTimer st.trans pid st.now }, [])
  | Cmd.advance d => ({ st with now := st.now + d }, [])

/-- Run a list of commands, accumulating the emitted events. -/
def run (st : ServerState) : List Cmd → ServerState × List Event
  | [] => (st, [])
  | c :: cs =>
    let r := step st c
    let r2 := run r.1 cs
    (r2.1, r.2 ++ r2.2)

/-! ### Orchestrator slice of the monolithic server file

The earlier monolithic server keeps its own `activeStreams` and
`activeEncodings` maps and, in its donePublish handler, schedules the
HLS cleanup `setTimeout` with a 10 second delay. Only that slice is
modelled here; its room hub handlers are the ones already embedded
above. The contents of the output directory are a list of file names;
the external ffmpeg children writing into it are modelled by an explicit
file-appears step. -/

/-- The deletion body of the cleanup timeout in the monolithic server's
donePublish handler: a first pass removes every file that starts with
the stream key and ends with `.m3u8`, a second pass removes every file
that starts with the stream key and ends with `.ts` or `.m4s`, or ends
with `.mp4` while containing `init_`. The prefix test is
`file.startsWith(streamKey)`, with no underscore appended. -/
def cleanupStreamFiles (streamKey : String) (dir : List String) : List String :=
  let afterPlaylists := dir.filter (fun f =>
    !(strStartsWith f streamKey && strEndsWith f ".m3u8"))
  afterPlaylists.filter (fun f =>
    !(strStartsWith f streamKey &&
      (strEndsWith f ".ts" || strEndsWith f ".m4s" ||
       (strEndsWith f ".mp4" && strContains f "init_"))))

/-- Orchestrator state of the monolithic server: active streams (start
times), the ffmpeg command handles per key, the pending cleanup
timeouts as `(stream key, fire time)`, the output directory contents,
the log of SIGKILLed handles, a pid counter, and the clock. -/
structure CState where
  activeStreams : List (String × Nat)
  activeEncodings : List (String × List Nat)
  cleanupTimers : List (String × Nat)
  dir : List String
  killedPids : List Nat
  nextPid : Nat
  now : Nat
deriving Repr, DecidableEq

/-- Monolithic-server orchestrator state at process start. -/
def CState.init : CState :=
  { activeStreams := [], activeEncodings := [], cleanupTimers := [], dir := []
    killedPids := [], nextPid := 0, now := 0 }

/-- The monolithic postPublish handler: derive the key, record the
`activeStreams` row, and start the fluent-ffmpeg commands (one for
H.264, a second one when the room policy enables H.265, passed here as
an argument). Pending cleanup timers are not touched: nothing in the
source cancels a scheduled cleanup. -/
def postPublishMono (cst : CState) (streamPath : String) (h265Enabled : Bool) : CState :=
  if streamPath == "" then cst else
  let streamKey := lastSegment streamPath
  let pids := if h265Enabled then [cst.nextPid, cst.nextPid + 1] else [cst.nextPid]
  { cst with
    activeStreams := mapSet cst.activeStreams streamKey cst.now
    activeEncodings := mapSet cst.activeEncodings streamKey pids
    nextPid := cst.nextPid + pids.length }

/-- The monolithic donePublish handler: drop the row, SIGKILL every
stored ffmpeg command and drop their entry, and schedule the cleanup
timeout 10 seconds out (10000 ms in the source). -/
def donePublishMono (cst : CState) (streamPath : String) : CState :=
  if streamPath == "" then cst else
  let streamKey := lastSegment streamPath
  let killed := match mapGet cst.activeEncodings streamKey with
    | some pids => cst.killedPids ++ pids
    | none => cst.killedPids
  { cst with
    activeStreams := mapDelete cst.activeStreams streamKey
    activeEncodings := mapDelete cst.activeEncodings streamKey
    killedPids := killed
    cleanupTimers := cst.cleanupTimers ++ [(streamKey, cst.now + 10)] }

/-- Firing a due cleanup timeout for a key: consume the first pending
timer whose deadline has passed and run the deletion passes over the
output directory. -/
def fireCleanupTimer (cst : CState) (streamKey : String) : CState :=
  match cst.cleanupTimers.find? (fun t => t.1 == streamKey && decide (t.2 ≤ cst.now)) with
  | none => cst
  | some timer =>
    { cst with
      cleanupTimers := cst.cleanupTimers.erase timer
      dir := cleanupStreamFiles streamKey cst.dir }

/-- Steps of the monolithic orchestrator slice: the two publish events,
a due cleanup timer firing, an external encoder writing a file, and the
clock advancing. -/
inductive CCmd where
  | postPublish (streamPath : String) (h265Enabled : Bool)
  | donePublish (streamPath : String)
  | cleanupTimerFire (streamKey : String)
  | fileAppears (name : String)
  | advance (d : Nat)
deriving Repr, DecidableEq

/-- One step of the monolithic orchestrator slice. -/
def cstep (cst : CState) : CCmd → CState
  | CCmd.postPublish streamPath h265Enabled => postPublishMono cst streamPath h265Enabled
  | CCmd.donePublish streamPath => donePublishMono cst streamPath
  | CCmd.cleanupTimerFire streamKey => fireCleanupTimer cst streamKey
  | CCmd.fileAppears name => { cst with dir := cst.dir ++ [name] }
  | CCmd.advance d => { cst with now := cst.now + d }

/-- Run a list of monolithic orchestrator steps. -/
def crun (cst : CState) : List CCmd → CState
  | [] => cst
  | c :: cs => crun (cstep cst c) cs

/-- A re-publish-during-grace trace: publish `k`, end it (scheduling
cleanup at t = 11), re-publish `k` within the grace window, the new
encoder writes a playlist, and the old timer fires at t = 11. -/
def c3Trace : List CCmd :=
  [CCmd.postPublish "live/k" false, CCmd.advance 1, CCmd.donePublish "live/k",
   CCmd.advance 5, CCmd.postPublish "live/k" false,
   CCmd.fileAppears "k_h264_720p.m3u8", CCmd.advance 5, CCmd.cleanupTimerFire "k"]

/-- Recognizer for a `poll-closed` emission for one poll of one room. -/
def isPollClosedFor (key : String) (pid : Nat) : Event → Bool
  | Event.pollClosed room pollId => room == key && pollId == pid
  | _ => false

/-- A teacher creates an auto-closing poll, closes it by hand before
the deadline, and then the auto-close timer fires at its deadline. -/
def c7Trace : List Cmd :=
  [Cmd.joinRoom "t" "k" "T" "teacher", Cmd.createPoll "t" "q" ["A", "B"] (some 5),
   Cmd.closePoll "t" 0, Cmd.advance 5, Cmd.pollTimerFire "k" 0]

/-- A connection joins, raises its hand, and joins the same room again. -/
def c8Trace : List Cmd :=
  [Cmd.joinRoom "s" "k" "u" "student", Cmd.raiseHand "s",
   Cmd.joinRoom "s" "k" "u" "student"]

/-- The re-join trace followed by a second raise. -/
def c8TraceDup : List Cmd := c8Trace ++ [Cmd.raiseHand "s"]

/-- The room the re-join trace produces: the overwritten participant
record has `handRaised := false` while the queue still holds `s`. -/
def c8Room : Room :=
  { streamKey := "k"
    participants := [("s", ⟨"s", "u", "student", 0, false⟩)]
    messages := []
    polls := []
    handRaises := [⟨"s", "u", 0⟩]
    h265Enabled := false }

/-! ### Invariant statements -/

/-- The total of the option vote counters of a poll. -/
def sumVotes (options : List PollOption) : Nat := (options.map (·.votes)).sum

/-- Vote integrity of one poll: the counters add up to the number of
voters, and no voter appears twice. -/
def PollOk (q : Poll) : Prop := sumVotes q.options = q.voters.length ∧ q.voters.Nodup

/-- Vote integrity over a rooms table. -/
def RoomsPollInv (rooms : List (String × Room)) : Prop :=
  ∀ key room, mapGet rooms key = some room → ∀ q ∈ room.polls, PollOk q

/-- Vote integrity over the whole server state. -/
def PollInv (st : ServerState) : Prop := RoomsPollInv st.rooms

/-- The socket ids in a room's hand-raise queue, in queue order. -/
def queueIds (room : Room) : List String := room.handRaises.map (·.socketId)

/-- Hand-raise consistency of one room: no socket id is queued twice,
a participant's flag is set exactly when its id is queued, and every
queue entry belongs to a participant whose flag is set. -/
def HandOk (room : Room) : Prop :=
  (queueIds room).Nodup ∧
  (∀ sid p, mapGet room.participants sid = some p →
    (p.handRaised = true ↔ sid ∈ queueIds room)) ∧
  (∀ h ∈ room.handRaises, ∃ p, mapGet room.participants h.socketId = some p ∧
    p.handRaised = true)

/-- Hand-raise consistency over a rooms table. -/
def RoomsHandInv (rooms : List (String × Room)) : Prop :=
  ∀ key room, mapGet rooms key = some room → HandOk room

/-- Hand-raise consistency over the whole server state. -/
def HandInv (st : ServerState) : Prop := RoomsHandInv st.rooms

/-- Side condition on a command: a join of a connection that is already
a participant of the target room is excluded (the handler overwrites
the participant record with `handRaised := false` while leaving the
queue entry, which breaks hand-raise consistency; see the C8
counterexample). All other commands are unrestricted. -/
def NoRejoin (st : ServerState) : Cmd → Prop
  | Cmd.joinRoom sid streamKey _ _ =>
      ∀ room, mapGet st.rooms streamKey = some room → mapGet room.participants sid = none
  | _ => True

/-- A trace is rejoin-free when every join along it adds a connection
that is not yet a participant of its target room. -/
def OkTrace (st : ServerState) : List Cmd → Prop
  | [] => True
  | c :: cs => NoRejoin st c ∧ OkTrace (step st c).1 cs

/-- The keys of an association-list map. -/
def mapKeys (m : List (String × α)) : List String := m.map (·.1)

/-- Well-formedness of the orchestrator tables: no stream key holds two
`activeStreams` rows or two supervisor handles. -/
def TablesWf (st : ServerState) : Prop :=
  (mapKeys st.activeStreams).Nodup ∧ (mapKeys st.trans.activeProcesses).Nodup

/-- The role recorded for a connection in `socket.data`, or the empty
string when the connection never joined. -/
def roleOf (st : ServerState) (sid : String) : String :=
  ((mapGet st.socketData sid).map (·.role)).getD ""

/-- The room a connection is currently wired to: none when the
connection never joined, and none when its recorded stream key no
longer maps to an existing room. -/
def joinedRoomOf (st : ServerState) (sid : String) : Option Room :=
  match mapGet st.socketData sid with
  | none => none
  | some d => mapGet st.rooms d.streamKey

/-! ### Lemmas about the map model -/

theorem mapGet_mapSet_self (m : List (String × α)) (k : String) (v : α) :
    mapGet (mapSet m k v) k = some v := by
  induction m with
  | nil => simp [mapSet, mapGet]
  | cons e rest ih =>
    by_cases h : e.1 = k
    · simp [mapSet, mapGet, h]
    · simp [mapSet, mapGet, h, ih]

theorem mapGet_mapSet_ne (m : List (String × α)) (k k' : String) (v : α) (h : k' ≠ k) :
    mapGet (mapSet m k v) k' = mapGet m k' := by
  induction m with
  | nil => simp [mapSet, mapGet, Ne.symm h]
  | cons e rest ih =>
    by_cases he : e.1 = k
    · simp [mapSet, mapGet, he, Ne.symm h]
    · simp [mapSet, mapGet, he, ih]

theorem mapGet_mapSet_cases (m : List (String × α)) (k k' : String) (v r : α)
    (hget : mapGet (mapSet m k v) k' = some r) :
    (k' = k ∧ r = v) ∨ mapGet m k' = some r := by
  by_cases h : k' = k
  · subst h
    rw [mapGet_mapSet_self] at hget
    exact Or.inl ⟨rfl, (Option.some.inj hget).symm⟩
  · rw [mapGet_mapSet_ne m k k' v h] at hget
    exact Or.inr hget

theorem mapGet_mapDelete_self (m : List (String × α)) (k : String) :
    mapGet (mapDelete m k) k = none := by
  induction m with
  | nil => simp [mapDelete, mapGet]
  | cons e rest ih =>
    by_cases h : e.1 = k
    · simp [mapDelete, h, ih]
    · simp [mapDelete, mapGet, h, ih]

theorem mapGet_mapDelete_ne (m : List (String × α)) (k k' : String) (h : k' ≠ k) :
    mapGet (mapDelete m k) k' = mapGet m k' := by
  induction m with
  | nil => simp [mapDelete]
  | cons e rest ih =>
    by_cases he : e.1 = k
    · simp [mapDelete, mapGet, he, Ne.symm h, ih]
    · simp [mapDelete, mapGet, he, ih]

theorem mapGet_mapDelete_sub (m : List (String × α)) (k k' : String) (r : α)
    (hget : mapGet (mapDelete m k) k' = some r) : mapGet m k' = some r := by
  by_cases h : k' = k
  · subst h; rw [mapGet_mapDelete_self] at hget; cases hget
  · rwa [mapGet_mapDelete_ne m k k' h] at hget

theorem mapGet_eq_none_iff (m : List (String × α)) (k : String) :
    mapGet m k = none ↔ k ∉ mapKeys m := by
  induction m with
  | nil => simp [mapGet, mapKeys]
  | cons e rest ih =>
    by_cases h : e.1 = k
    · simp [mapGet, mapKeys, h]
    · simp [mapGet, mapKeys, h, ih, Ne.symm h]

theorem mapKeys_mapSet (m : List (String × α)) (k : String) (v : α) :
    mapKeys (mapSet m k v) = if mapHas m k then mapKeys m else mapKeys m ++ [k] := by
  induction m with
  | nil => simp [mapSet, mapKeys, mapHas, mapGet]
  | cons e rest ih =>
    by_cases h : e.1 = k
    · have hhas : mapHas (e :: rest) k = true := by simp [mapHas, mapGet, h]
      rw [hhas]
      simp [mapSet, mapKeys, h]
    · have hb : (e.1 == k) = false := by simp [h]
      have hhas : mapHas (e :: rest) k = mapHas rest k := by simp [mapHas, mapGet, hb]
      rw [hhas]
      simp only [mapSet, hb, Bool.false_eq_true, if_false]
      simp only [mapKeys, List.map_cons] at ih ⊢
      rw [ih]
      by_cases hr : mapHas rest k
      · rw [if_pos hr, if_pos hr]
      · rw [if_neg hr, if_neg hr]
        simp

theorem mapKeys_mapSet_nodup (m : List (String × α)) (k : String) (v : α)
    (h : (mapKeys m).Nodup) : (mapKeys (mapSet m k v)).Nodup := by
  rw [mapKeys_mapSet]
  by_cases hh : mapHas m k
  · rw [if_pos hh]; exact h
  · rw [if_neg hh]
    have hk : k ∉ mapKeys m := by
      rw [← mapGet_eq_none_iff]
      exact Option.not_isSome_iff_eq_none.mp (by simpa [mapHas] using hh)
    rw [List.nodup_append]
    exact ⟨h, List.nodup_singleton k, List.disjoint_singleton.mpr hk⟩

theorem mapDelete_sublist (m : List (String × α)) (k : String) :
    (mapDelete m k).Sublist m := by
  induction m with
  | nil => simp [mapDelete]
  | cons e rest ih =>
    by_cases h : e.1 = k
    · simpa [mapDelete, h] using ih.cons e
    · simpa [mapDelete, h] using ih.cons₂ e

theorem mapKeys_mapDelete_nodup (m : List (String × α)) (k : String)
    (h : (mapKeys m).Nodup) : (mapKeys (mapDelete m k)).Nodup :=
  List.Nodup.sublist (List.Sublist.map _ (mapDelete_sublist m k)) h

/-! ### Lemmas about updateFirst -/

theorem mem_updateFirst_of_find? (p : α → Bool) (f : α → α) (l : List α) (b a : α)
    (hfind : l.find? p = some b) (hmem : a ∈ updateFirst p f l) :
    a = f b ∨ a ∈ l := by
  induction l with
  | nil => simp [updateFirst] at hmem
  | cons x rest ih =>
    by_cases hx : p x
    · rw [List.find?_cons_of_pos _ hx] at hfind
      have hb : b = x := (Option.some.inj hfind).symm
      subst hb
      simp only [updateFirst] at hmem
      rw [if_pos hx] at hmem
      rcases List.mem_cons.mp hmem with h | h
      · exact Or.inl h
      · exact Or.inr (List.mem_cons_of_mem _ h)
    · rw [List.find?_cons_of_neg _ hx] at hfind
      simp only [updateFirst] at hmem
      rw [if_neg hx] at hmem
      rcases List.mem_cons.mp hmem with h | h
      · exact Or.inr (h ▸ List.mem_cons_self _ _)
      · rcases ih hfind h with h2 | h2
        · exact Or.inl h2
        · exact Or.inr (List.mem_cons_of_mem _ h2)

theorem find?_updateFirst (p : α → Bool) (f : α → α) (l : List α)
    (hp : ∀ x, p (f x) = p x) :
    (updateFirst p f l).find? p = (l.find? p).map f := by
  induction l with
  | nil => simp [updateFirst]
  | cons x rest ih =>
    by_cases hx : p x
    · simp only [updateFirst]
      rw [if_pos hx]
      rw [List.find?_cons_of_pos _ (by rw [hp]; exact hx), List.find?_cons_of_pos _ hx]
      rfl
    · simp only [updateFirst]
      rw [if_neg hx]
      rw [List.find?_cons_of_neg _ hx, List.find?_cons_of_neg _ hx, ih]

theorem sumVotes_updateFirst_inc (p : PollOption → Bool) (l : List PollOption)
    (h : (l.find? p).isSome = true) :
    sumVotes (updateFirst p (fun o => { o with votes := o.votes + 1 }) l)
      = sumVotes l + 1 := by
  induction l with
  | nil => simp [updateFirst] at h
  | cons o rest ih =>
    by_cases ho : p o
    · simp only [updateFirst]
      rw [if_pos ho]
      simp only [sumVotes, List.map_cons, List.sum_cons]
      omega
    · rw [List.find?_cons_of_neg _ ho] at h
      simp only [updateFirst]
      rw [if_neg ho]
      simp only [sumVotes, List.map_cons, List.sum_cons]
      have h2 := ih h
      simp only [sumVotes] at h2
      omega

theorem sumVotes_map_zero (l : List α) (f : α → PollOption)
    (h : ∀ x, (f x).votes = 0) : sumVotes (l.map f) = 0 := by
  induction l with
  | nil => simp [sumVotes]
  | cons x rest ih =>
    simp only [sumVotes, List.map_cons, List.sum_cons, h x] at *
    omega

/-- After `sendSignal` set the killed flag of every process with the
pid, any process the timer body finds for that pid has its flag set. -/
theorem find?_flagged (procs : List ChildProcess) (pid : Nat) (p : ChildProcess)
    (h : (procs.map (fun q => if q.pid = pid then { q with killedFlag := true } else q)).find?
      (fun q => q.pid == pid) = some p) : p.killedFlag = true := by
  induction procs with
  | nil => simp at h
  | cons q rest ih =>
    by_cases hq : q.pid = pid
    · simp only [List.map_cons, if_pos hq] at h
      rw [List.find?_cons_of_pos _ (by simpa using hq)] at h
      cases h
      rfl
    · simp only [List.map_cons, if_neg hq] at h
      rw [List.find?_cons_of_neg _ (by simpa using hq)] at h
      exact ih h

/-! ### C9: role authorization -/

/-- C9: every teacher-only command — create-poll, close-poll, and
update-stream-settings (the set-codec-policy command) — issued by a
connection whose recorded role is not teacher is a no-op: the server
state is unchanged and no event is emitted to anyone. -/
theorem C9_teacher_only_noop (st : ServerState) (sid : String)
    (hrole : roleOf st sid ≠ "teacher")
    (question : String) (options : List String) (duration : Option Nat)
    (pollId : Nat) (b : Bool) :
    step st (Cmd.createPoll sid question options duration) = (st, []) ∧
    step st (Cmd.closePoll sid pollId) = (st, []) ∧
    step st (Cmd.updateStreamSettings sid b) = (st, []) := by
  refine ⟨?_, ?_, ?_⟩
  · cases hd : mapGet st.socketData sid with
    | none => simp [step, handleCreatePoll, hd]
    | some d =>
      have hr : d.role ≠ "teacher" := by simpa [roleOf, hd] using hrole
      have hb : (d.role != "teacher") = true := bne_iff_ne.mpr hr
      simp [step, handleCreatePoll, hd, hb]
  · cases hd : mapGet st.socketData sid with
    | none => simp [step, handleClosePoll, hd]
    | some d =>
      have hr : d.role ≠ "teacher" := by simpa [roleOf, hd] using hrole
      have hb : (d.role != "teacher") = true := bne_iff_ne.mpr hr
      simp [step, handleClosePoll, hd, hb]
  · cases hd : mapGet st.socketData sid with
    | none => simp [step, handleUpdateStreamSettings, hd]
    | some d =>
      have hr : d.role ≠ "teacher" := by simpa [roleOf, hd] using hrole
      have hb : (d.role != "teacher") = true := bne_iff_ne.mpr hr
      simp [step, handleUpdateStreamSettings, hd, hb]

/-- Witness for C9 at a concrete state: a joined student issues all
three teacher-only commands, and each one is a no-op. -/
theorem C9_teacher_only_noop_witness :
    let st := (run initState [Cmd.joinRoom "s" "k" "u" "student"]).1
    step st (Cmd.createPoll "s" "q" ["A"] (some 5)) = (st, []) ∧
    step st (Cmd.closePoll "s" 0) = (st, []) ∧
    step st (Cmd.updateStreamSettings "s" true) = (st, []) :=
  C9_teacher_only_noop _ "s" (by decide) "q" ["A"] (some 5) 0 true

/-! ### C10: commands from unjoined connections -/

/-- C10: every room command other than join-room — chat-message,
create-poll, vote-poll, raise-hand, lower-hand, update-stream-settings —
from a connection that never joined, or whose recorded stream key no
longer maps to an existing room, is silently ignored: the state is
unchanged and no event is emitted. -/
theorem C10_unjoined_commands_ignored (st : ServerState) (sid : String)
    (hjoin : joinedRoomOf st sid = none)
    (message question : String) (options : List String) (duration : Option Nat)
    (pollId optionId : Nat) (b : Bool) :
    step st (Cmd.chatMessage sid message) = (st, []) ∧
    step st (Cmd.createPoll sid question options duration) = (st, []) ∧
    step st (Cmd.votePoll sid pollId optionId) = (st, []) ∧
    step st (Cmd.raiseHand sid) = (st, []) ∧
    step st (Cmd.lowerHand sid) = (st, []) ∧
    step st (Cmd.updateStreamSettings sid b) = (st, []) := by
  cases hd : mapGet st.socketData sid with
  | none =>
    refine ⟨?_, ?_, ?_, ?_, ?_, ?_⟩ <;>
      simp [step, handleChatMessage, handleCreatePoll, handleVotePoll,
        handleRaiseHand, handleLowerHand, handleUpdateStreamSettings, hd]
  | some d =>
    have hroom : mapGet st.rooms d.streamKey = none := by
      simpa [joinedRoomOf, hd] using hjoin
    refine ⟨?_, ?_, ?_, ?_, ?_, ?_⟩ <;>
      simp [step, handleChatMessage, handleCreatePoll, handleVotePoll,
        handleRaiseHand, handleLowerHand, handleUpdateStreamSettings, hd, hroom]

/-- Witness for C10 at a concrete state: a connection that joined room
`"k"` is left dangling after the room was destroyed by the last
disconnect, and a second connection never joined at all; commands from
both are ignored. -/
theorem C10_unjoined_commands_ignored_witness :
    let st := (run initState [Cmd.joinRoom "s" "k" "u" "student", Cmd.disconnect "s"]).1
    step st (Cmd.chatMessage "s" "hi") = (st, []) ∧
    step st (Cmd.votePoll "x" 0 1) = (st, []) := by
  refine ⟨(C10_unjoined_commands_ignored _ "s" (by decide) "hi" "q" [] none 0 0 true).1, ?_⟩
  exact (C10_unjoined_commands_ignored _ "x" (by decide) "hi" "q" [] none 0 1 true).2.2.1

/-! ### C2: cleanup file selection -/

/-- C2 counterexample: with stream key `k`, the cleanup deletes
`kother_720p.m3u8` — a file of the different stream key `kother`, whose
name does not begin with `k_` — while it keeps the fragmented-MP4 init
file `init_k_h264_720p.mp4` of key `k`, which the claim says is
deleted. -/
theorem C2_cleanup_counterexample :
    cleanupStreamFiles "k" ["kother_720p.m3u8", "init_k_h264_720p.mp4"]
        = ["init_k_h264_720p.mp4"] ∧
    strStartsWith "kother_720p.m3u8" "k_" = false ∧
    strStartsWith "init_k_h264_720p.mp4" "k_" = false := by decide

/-- C2 (amended): after donePublish a cleanup is scheduled 10 seconds
out, and when it fires it deletes exactly the files whose names begin
with the bare stream key (no underscore required, so files of another
key extending it are also hit) and end with `.m3u8`, `.ts` or `.m4s`,
or end with `.mp4` while containing `init_`; fragmented-MP4 init files,
named `init_<key>_...`, do not begin with the key and survive. -/
theorem C2_cleanup_amended :
    (∀ (key : String) (dir : List String) (f : String),
      f ∈ cleanupStreamFiles key dir ↔
        f ∈ dir ∧ ¬(strStartsWith f key = true ∧
          (strEndsWith f ".m3u8" = true ∨ strEndsWith f ".ts" = true ∨
           strEndsWith f ".m4s" = true ∨
           (strEndsWith f ".mp4" = true ∧ strContains f "init_" = true)))) ∧
    (∀ (cst : CState) (path : String), path ≠ "" →
      (donePublishMono cst path).cleanupTimers
        = cst.cleanupTimers ++ [(lastSegment path, cst.now + 10)]) := by
  constructor
  · intro key dir f
    simp only [cleanupStreamFiles, List.mem_filter, Bool.not_eq_eq_eq_not,
      Bool.not_true, Bool.and_eq_false_imp]
    constructor
    · rintro ⟨⟨hmem, h1⟩, h2⟩
      refine ⟨hmem, ?_⟩
      rintro ⟨hs, hsuf⟩
      rcases hsuf with h | h | h | ⟨h, h3⟩
      · simp [hs, h] at h1
      · simp [hs, h] at h2
      · simp [hs, h] at h2
      · simp [hs, h, h3] at h2
    · rintro ⟨hmem, hno⟩
      by_cases hs : strStartsWith f key = true
      · refine ⟨⟨hmem, ?_⟩, ?_⟩
        · intro _
          by_contra h
          exact hno ⟨hs, Or.inl (by simpa using h)⟩
        · intro _
          by_contra h
          simp only [Bool.not_eq_false] at h
          rcases Bool.or_eq_true_iff.mp h with h | h
          · rcases Bool.or_eq_true_iff.mp h with h | h
            · exact hno ⟨hs, Or.inr (Or.inl h)⟩
            · exact hno ⟨hs, Or.inr (Or.inr (Or.inl h))⟩
          · rcases Bool.and_eq_true_iff.mp h with ⟨ha, hb⟩
            exact hno ⟨hs, Or.inr (Or.inr (Or.inr ⟨ha, hb⟩))⟩
      · refine ⟨⟨hmem, fun h => absurd h hs⟩, fun h => absurd h hs⟩
  · intro cst path hpath
    have hb : (path == "") = false := by simpa using hpath
    simp [donePublishMono, hb]

/-- Witness for C2 at a concrete input: the second conjunct applied to
the initial state and the path `live/k` schedules the cleanup of `k`
10 seconds out, and the first conjunct applied to a concrete directory
shows the playlist of `k` is deleted while an unrelated file stays. -/
theorem C2_cleanup_amended_witness :
    (donePublishMono CState.init "live/k").cleanupTimers = [("k", 10)] ∧
    ("other.m3u8" ∈ cleanupStreamFiles "k" ["k_h264.m3u8", "other.m3u8"] ↔
      "other.m3u8" ∈ (["k_h264.m3u8", "other.m3u8"] : List String) ∧
        ¬(strStartsWith "other.m3u8" "k" = true ∧
          (strEndsWith "other.m3u8" ".m3u8" = true ∨ strEndsWith "other.m3u8" ".ts" = true ∨
           strEndsWith "other.m3u8" ".m4s" = true ∨
           (strEndsWith "other.m3u8" ".mp4" = true ∧
            strContains "other.m3u8" "init_" = true)))) := by
  constructor
  · have h := C2_cleanup_amended.2 CState.init "live/k" (by decide)
    simpa using h
  · exact C2_cleanup_amended.1 "k" ["k_h264.m3u8", "other.m3u8"] "other.m3u8"

/-! ### C3: cleanup is not canceled by a re-publish -/

/-- C3: the scheduled cleanup is never canceled — postPublish leaves
the pending cleanup timers untouched — so on the C3 trace the grace
timer of the ended stream fires while `k` is live again and deletes the
re-published stream's playlist: the directory ends empty although an
ActiveStream for `k` exists. -/
theorem C3_republish_does_not_cancel_cleanup :
    ((crun CState.init c3Trace).dir = [] ∧
     mapHas (crun CState.init c3Trace).activeStreams "k" = true) ∧
    (∀ (cst : CState) (path : String) (b : Bool),
      (postPublishMono cst path b).cleanupTimers = cst.cleanupTimers) := by
  constructor
  · exact ⟨by decide, by decide⟩
  · intro cst path b
    by_cases h : path == ""
    · simp [postPublishMono, h]
    · simp [postPublishMono, h]

/-! ### C5: stopTranscoding -/

/-- C5 counterexample: after starting the transcoder for `k`, the first
stop returns the recording path but the second call returns null, not
the recording path. -/
theorem C5_second_stop_counterexample :
    (stopTranscoding (startTranscoding TransState.init "k" false 0).2 "k" 1).1
        = some "k_0.flv" ∧
    (stopTranscoding
        (stopTranscoding (startTranscoding TransState.init "k" false 0).2 "k" 1).2
        "k" 2).1 = none := by decide

/-- C5 (amended): for a key with a live supervisor entry, the first
stop sends SIGINT, schedules the 5-second force-kill check, removes the
entry and returns the recording path; every later stop returns null and
leaves the transcoder state unchanged; and the force-kill check never
sends SIGKILL, because it tests the Node `killed` flag, which the
SIGINT send already set. -/
theorem C5_stop_amended (ts : TransState) (key : String) (now : Nat) (entry : ProcEntry)
    (hentry : mapGet ts.activeProcesses key = some entry) :
    (stopTranscoding ts key now).1 = some entry.recordingPath ∧
    (stopTranscoding ts key now).2.signalLog = ts.signalLog ++ [(entry.pid, "SIGINT")] ∧
    (stopTranscoding ts key now).2.killTimers = ts.killTimers ++ [(entry.pid, now + 5)] ∧
    mapGet (stopTranscoding ts key now).2.activeProcesses key = none ∧
    (∀ now2, stopTranscoding (stopTranscoding ts key now).2 key now2
        = (none, (stopTranscoding ts key now).2)) ∧
    (∀ now2, (fireKillTimer (stopTranscoding ts key now).2 entry.pid now2).signalLog
        = (stopTranscoding ts key now).2.signalLog) := by
  have hget : mapGet (stopTranscoding ts key now).2.activeProcesses key = none := by
    simp only [stopTranscoding, hentry, sendSignal]
    exact mapGet_mapDelete_self _ _
  refine ⟨?_, ?_, ?_, hget, ?_, ?_⟩
  · simp [stopTranscoding, hentry]
  · simp [stopTranscoding, hentry, sendSignal]
  · simp [stopTranscoding, hentry, sendSignal]
  · intro now2
    generalize hr2 : (stopTranscoding ts key now).2 = r2 at hget ⊢
    simp only [stopTranscoding, hget]
  · intro now2
    have hprocs : (stopTranscoding ts key now).2.procs
        = ts.procs.map (fun q =>
            if q.pid = entry.pid then { q with killedFlag := true } else q) := by
      simp [stopTranscoding, hentry, sendSignal]
    generalize hr2 : (stopTranscoding ts key now).2 = r2 at hprocs ⊢
    simp only [fireKillTimer]
    cases hfind : r2.killTimers.find? (fun t => t.1 == entry.pid && decide (t.2 ≤ now2)) with
    | none => rfl
    | some timer =>
      cases hproc : r2.procs.find? (fun p => p.pid == entry.pid) with
      | none => rfl
      | some p =>
        have hflag : p.killedFlag = true :=
          find?_flagged ts.procs entry.pid p (hprocs ▸ hproc)
        simp [hflag]

/-- Witness for C5 at a concrete input: start `k` at time 0, stop at
time 1; the stop returns the recording path, and a second stop at time
2 returns null with the state unchanged. -/
theorem C5_stop_amended_witness :
    (stopTranscoding (startTranscoding TransState.init "k" false 0).2 "k" 1).1
        = some "k_0.flv" ∧
    stopTranscoding
        (stopTranscoding (startTranscoding TransState.init "k" false 0).2 "k" 1).2 "k" 2
      = (none, (stopTranscoding (startTranscoding TransState.init "k" false 0).2 "k" 1).2) := by
  have h := C5_stop_amended (startTranscoding TransState.init "k" false 0).2 "k" 1
    { pid := 0, recordingPath := "k_0.flv", enableH265 := false } (by decide)
  exact ⟨h.1, h.2.2.2.2.1 2⟩

/-! ### C1: postPublish is not single-writer -/

/-- One step preserves well-formedness of the orchestrator tables: all
writes go through the map model, which holds a key at most once. -/
theorem tablesWf_step (st : ServerState) (c : Cmd) (h : TablesWf st) :
    TablesWf (step st c).1 := by
  obtain ⟨h1, h2⟩ := h
  cases c <;>
    simp only [step, handleJoinRoom, handleChatMessage, handleCreatePoll, handleVotePoll,
      handleClosePoll, handleRaiseHand, handleLowerHand, handleUpdateStreamSettings,
      handleTyping, handleDisconnect, handlePostPublish, handleDonePublish, firePollTimer,
      startTranscoding, stopTranscoding, fireKillTimer, sendSignal] <;>
    (repeat' split) <;>
    first
      | exact ⟨h1, h2⟩
      | exact ⟨mapKeys_mapSet_nodup _ _ _ h1, mapKeys_mapSet_nodup _ _ _ h2⟩
      | exact ⟨mapKeys_mapDelete_nodup _ _ h1, mapKeys_mapDelete_nodup _ _ h2⟩
      | exact ⟨mapKeys_mapDelete_nodup _ _ h1, h2⟩

/-- Every reachable state has well-formed orchestrator tables. -/
theorem tablesWf_run (cmds : List Cmd) : TablesWf (run initState cmds).1 := by
  suffices h : ∀ st, TablesWf st → TablesWf (run st cmds).1 from
    h initState ⟨List.nodup_nil, List.nodup_nil⟩
  induction cmds with
  | nil => intro st h; exact h
  | cons c cs ih => intro st h; exact ih _ (tablesWf_step st c h)

/-- C1 counterexample: two postPublish events for the same key `k`.
The second is not ignored: a second transcoder process is spawned (two
processes, no signal ever sent), and both the `activeStreams` row and
the supervisor handle are overwritten with fresh values. -/
theorem C1_double_publish_counterexample :
    (run initState [Cmd.postPublish "k" "ip", Cmd.advance 1,
        Cmd.postPublish "k" "ip"]).1.trans.procs.length = 2 ∧
    (run initState [Cmd.postPublish "k" "ip", Cmd.advance 1,
        Cmd.postPublish "k" "ip"]).1.trans.signalLog = [] ∧
    mapGet (run initState [Cmd.postPublish "k" "ip", Cmd.advance 1,
        Cmd.postPublish "k" "ip"]).1.activeStreams "k"
      = some { startTime := 1, publisherIp := "ip", recordingPath := "k_1.flv" } ∧
    mapGet (run initState [Cmd.postPublish "k" "ip"]).1.activeStreams "k"
      = some { startTime := 0, publisherIp := "ip", recordingPath := "k_0.flv" } := by
  decide

/-- C1 (amended): postPublish never ignores a publish: it
unconditionally spawns a fresh transcoder process (without signalling
the previous one) and overwrites both the `activeStreams` row and the
supervisor handle of the key. Because both tables are maps, every
reachable state still holds at most one row and at most one handle per
key — but not at most one live transcoder process. -/
theorem C1_postPublish_overwrites (st : ServerState) (path ip : String)
    (hpath : path ≠ "") :
    (step st (Cmd.postPublish path ip)).1.trans.procs
        = st.trans.procs ++ [{ pid := st.trans.nextPid, killedFlag := false }] ∧
    (step st (Cmd.postPublish path ip)).1.trans.signalLog = st.trans.signalLog ∧
    mapGet (step st (Cmd.postPublish path ip)).1.activeStreams (lastSegment path)
        = some { startTime := st.now, publisherIp := ip,
                 recordingPath := recordingPathFor (lastSegment path) st.now } ∧
    mapGet (step st (Cmd.postPublish path ip)).1.trans.activeProcesses (lastSegment path)
        = some { pid := st.trans.nextPid,
                 recordingPath := recordingPathFor (lastSegment path) st.now,
                 enableH265 := roomPolicy st (lastSegment path) } ∧
    (∀ cmds, TablesWf (run initState cmds).1) := by
  have hb : (path == "") = false := by simpa using hpath
  refine ⟨?_, ?_, ?_, ?_, fun cmds => tablesWf_run cmds⟩ <;>
    simp [step, handlePostPublish, startTranscoding, hb, mapGet_mapSet_self]

/-- Witness for C1 at a concrete input: a publish of path `k` on the
fresh server spawns pid 0 and records the row for `k`. -/
theorem C1_postPublish_overwrites_witness :
    (step initState (Cmd.postPublish "k" "ip")).1.trans.procs
        = [{ pid := 0, killedFlag := false }] ∧
    mapGet (step initState (Cmd.postPublish "k" "ip")).1.activeStreams "k"
        = some { startTime := 0, publisherIp := "ip", recordingPath := "k_0.flv" } := by
  have h := C1_postPublish_overwrites initState "k" "ip" (by decide)
  exact ⟨by simpa using h.1, by simpa using h.2.2.1⟩

/-! ### C4: room destruction ignores the active stream -/

/-- C4 counterexample: key `k` is publishing (its `activeStreams` row
exists) when its only participant disconnects; the room is destroyed
anyway. -/
theorem C4_room_destroyed_while_publishing :
    mapHas (run initState [Cmd.postPublish "k" "ip",
        Cmd.joinRoom "s" "k" "alice" "student", Cmd.disconnect "s"]).1.rooms "k" = false ∧
    mapHas (run initState [Cmd.postPublish "k" "ip",
        Cmd.joinRoom "s" "k" "alice" "student", Cmd.disconnect "s"]).1.activeStreams "k"
      = true := by decide

/-- C4 (amended): on disconnect the room is destroyed exactly when its
participant count reaches zero, with no regard to `activeStreams` (which
the handler leaves untouched); when the count stays positive the room is
retained with the participant and its queue entry removed. -/
theorem C4_room_destroy_amended (st : ServerState) (sid : String) (d : SocketData)
    (room : Room) (hd : mapGet st.socketData sid = some d) (hkey : d.streamKey ≠ "")
    (hroom : mapGet st.rooms d.streamKey = some room) :
    (step st (Cmd.disconnect sid)).1.activeStreams = st.activeStreams ∧
    ((mapDelete room.participants sid).length = 0 →
        mapGet (step st (Cmd.disconnect sid)).1.rooms d.streamKey = none) ∧
    ((mapDelete room.participants sid).length ≠ 0 →
        mapGet (step st (Cmd.disconnect sid)).1.rooms d.streamKey
          = some { room with participants := mapDelete room.participants sid
                             handRaises := room.handRaises.filter
                               (fun h => h.socketId != sid) }) := by
  have hkb : (d.streamKey == "") = false := by simpa using hkey
  refine ⟨?_, ?_, ?_⟩
  · simp only [step, handleDisconnect, hd, hkb, Bool.false_eq_true, if_false, hroom]
  · intro hlen
    have hlb : ((mapDelete room.participants sid).length == 0) = true := by simpa using hlen
    simp only [step, handleDisconnect, hd, hkb, Bool.false_eq_true, if_false, hroom,
      hlb, if_true]
    exact mapGet_mapDelete_self _ _
  · intro hlen
    have hlb : ((mapDelete room.participants sid).length == 0) = false := by simpa using hlen
    simp only [step, handleDisconnect, hd, hkb, Bool.false_eq_true, if_false, hroom,
      hlb, if_false]
    exact mapGet_mapSet_self _ _ _

/-- Witness for C4 at a concrete input: the publishing key `k` has one
participant who disconnects; `activeStreams` is untouched and the room
is gone. -/
theorem C4_room_destroy_amended_witness :
    (step (run initState [Cmd.postPublish "k" "ip",
        Cmd.joinRoom "s" "k" "alice" "student"]).1 (Cmd.disconnect "s")).1.activeStreams
      = (run initState [Cmd.postPublish "k" "ip",
        Cmd.joinRoom "s" "k" "alice" "student"]).1.activeStreams ∧
    mapGet (step (run initState [Cmd.postPublish "k" "ip",
        Cmd.joinRoom "s" "k" "alice" "student"]).1 (Cmd.disconnect "s")).1.rooms "k"
      = none := by
  have h := C4_room_destroy_amended
    (run initState [Cmd.postPublish "k" "ip",
      Cmd.joinRoom "s" "k" "alice" "student"]).1 "s"
    ⟨"k", "alice", "student"⟩
    ⟨"k", [("s", ⟨"s", "alice", "student", 0, false⟩)], [], [], [], false⟩
    (by decide) (by decide) (by decide)
  exact ⟨h.1, h.2.1 (by decide)⟩

/-! ### C6: poll vote integrity -/

theorem mem_updateFirst (p : α → Bool) (f : α → α) (l : List α) (a : α)
    (h : a ∈ updateFirst p f l) : a ∈ l ∨ ∃ b, b ∈ l ∧ a = f b := by
  induction l with
  | nil => simp [updateFirst] at h
  | cons x rest ih =>
    by_cases hx : p x
    · simp only [updateFirst] at h
      rw [if_pos hx] at h
      rcases List.mem_cons.mp h with h | h
      · exact Or.inr ⟨x, List.mem_cons_self _ _, h⟩
      · exact Or.inl (List.mem_cons_of_mem _ h)
    · simp only [updateFirst] at h
      rw [if_neg hx] at h
      rcases List.mem_cons.mp h with h | h
      · exact Or.inl (h ▸ List.mem_cons_self _ _)
      · rcases ih h with h2 | ⟨b, hb, he⟩
        · exact Or.inl (List.mem_cons_of_mem _ h2)
        · exact Or.inr ⟨b, List.mem_cons_of_mem _ hb, he⟩

theorem roomsPollInv_set (rooms : List (String × Room)) (k : String) (room1 : Room)
    (hInv : RoomsPollInv rooms) (h1 : ∀ q ∈ room1.polls, PollOk q) :
    RoomsPollInv (mapSet rooms k room1) := by
  intro key room hget q hq
  rcases mapGet_mapSet_cases rooms k key room1 room hget with ⟨hk, hv⟩ | hold
  · exact h1 q (hv ▸ hq)
  · exact hInv key room hold q hq

theorem roomsPollInv_delete (rooms : List (String × Room)) (k : String)
    (hInv : RoomsPollInv rooms) : RoomsPollInv (mapDelete rooms k) :=
  fun key room hget => hInv key room (mapGet_mapDelete_sub _ _ _ _ hget)

/-- One step preserves vote integrity of every poll of every room. -/
theorem pollInv_step (st : ServerState) (c : Cmd) (h : PollInv st) :
    PollInv (step st c).1 := by
  cases c with
  | joinRoom sid streamKey username role =>
    simp only [step, handleJoinRoom]
    have h0 : RoomsPollInv (if mapHas st.rooms streamKey then st.rooms
        else mapSet st.rooms streamKey (createRoom streamKey)) := by
      split
      · exact h
      · exact roomsPollInv_set _ _ _ h (by simp [createRoom])
    split
    · exact h
    · rename_i room hroom
      exact roomsPollInv_set _ _ _ h0 (fun q hq => h0 _ _ hroom q hq)
  | chatMessage sid m =>
    simp only [step, handleChatMessage]
    split
    · exact h
    · split
      · exact h
      · split
        · exact h
        · rename_i room hroom
          exact roomsPollInv_set _ _ _ h (fun q hq => h _ _ hroom q hq)
  | createPoll sid question options duration =>
    simp only [step, handleCreatePoll]
    split
    · exact h
    · split
      · exact h
      · split
        · exact h
        · rename_i room hroom
          apply roomsPollInv_set _ _ _ h
          intro q' hq'
          rcases List.mem_append.mp hq' with hq' | hq'
          · exact h _ _ hroom q' hq'
          · rcases List.mem_singleton.mp hq'
            refine ⟨?_, List.nodup_nil⟩
            rw [sumVotes_map_zero _ _ (fun x => rfl)]
            rfl
  | votePoll sid pollId optionId =>
    simp only [step, handleVotePoll]
    split
    · exact h
    · split
      · exact h
      · split
        · exact h
        · rename_i d hd room hroom
          split
          · exact h
          · rename_i poll hpoll
            split
            · exact h
            · split
              · exact h
              · rename_i hstatus hvoted
                split
                · exact h
                · rename_i opt hopt
                  apply roomsPollInv_set _ _ _ h
                  intro q' hq'
                  rcases mem_updateFirst_of_find? _ _ _ _ _ hpoll hq' with heq | hmem
                  · have hP : PollOk poll :=
                      h _ _ hroom poll (List.mem_of_find?_eq_some hpoll)
                    rw [heq]
                    refine ⟨?_, ?_⟩
                    · rw [sumVotes_updateFirst_inc _ _ (by rw [hopt]; rfl)]
                      rw [hP.1]
                      simp
                    · rw [List.nodup_append]
                      refine ⟨hP.2, List.nodup_singleton _,
                        List.disjoint_singleton.mpr ?_⟩
                      intro hmem2
                      rw [show poll.voters.contains sid = true by
                        simpa using hmem2] at hvoted
                      exact hvoted rfl
                  · exact h _ _ hroom q' hmem
  | closePoll sid pollId =>
    simp only [step, handleClosePoll]
    split
    · exact h
    · split
      · exact h
      · split
        · exact h
        · rename_i room hroom
          split
          · exact h
          · split
            · rename_i poll hpoll hstatus
              apply roomsPollInv_set _ _ _ h
              intro q' hq'
              rcases mem_updateFirst _ _ _ _ hq' with hmem | ⟨b, hb, he⟩
              · exact h _ _ hroom q' hmem
              · rw [he]
                exact h _ _ hroom b hb
            · exact h
  | raiseHand sid =>
    simp only [step, handleRaiseHand]
    split
    · exact h
    · split
      · exact h
      · split
        · exact h
        · rename_i room hroom
          split
          · exact h
          · split
            · exact h
            · exact roomsPollInv_set _ _ _ h (fun q hq => h _ _ hroom q hq)
  | lowerHand sid =>
    simp only [step, handleLowerHand]
    split
    · exact h
    · split
      · exact h
      · split
        · exact h
        · rename_i room hroom
          split
          · exact h
          · split
            · exact roomsPollInv_set _ _ _ h (fun q hq => h _ _ hroom q hq)
            · exact h
  | updateStreamSettings sid b =>
    simp only [step, handleUpdateStreamSettings]
    split
    · exact h
    · split
      · exact h
      · split
        · exact h
        · rename_i room hroom
          exact roomsPollInv_set _ _ _ h (fun q hq => h _ _ hroom q hq)
  | typing sid b =>
    simp only [step, handleTyping]
    split
    · exact h
    · split
      · exact h
      · exact h
  | disconnect sid =>
    simp only [step, handleDisconnect]
    split
    · exact h
    · split
      · exact h
      · split
        · exact h
        · rename_i room hroom
          split
          · exact roomsPollInv_delete _ _ h
          · exact roomsPollInv_set _ _ _ h (fun q hq => h _ _ hroom q hq)
  | postPublish path ip =>
    simp only [step, handlePostPublish]
    split
    · exact h
    · exact h
  | donePublish path =>
    simp only [step, handleDonePublish]
    split
    · exact h
    · exact h
  | pollTimerFire streamKey pollId =>
    simp only [step, firePollTimer]
    split
    · exact h
    · split
      · rename_i room hroom
        apply roomsPollInv_set _ _ _ h
        intro q' hq'
        rcases mem_updateFirst _ _ _ _ hq' with hmem | ⟨b, hb, he⟩
        · exact h _ _ hroom q' hmem
        · rw [he]
          exact h _ _ hroom b hb
      · exact h
  | killTimerFire pid => exact h
  | advance d => exact h

/-- Vote integrity holds in every reachable state. -/
theorem pollInv_run (cmds : List Cmd) : PollInv (run initState cmds).1 := by
  suffices hs : ∀ st, PollInv st → PollInv (run st cmds).1 from
    hs initState (fun key room hget => by simp [mapGet] at hget)
  induction cmds with
  | nil => intro st h; exact h
  | cons c cs ih => intro st h; exact ih _ (pollInv_step st c h)

/-- C6: after any command sequence, every poll of every room satisfies
`sum(option.votes) = |voters|` with `voters` duplicate-free; and a vote
on a missing or non-active poll, by a connection that already voted, or
for an unknown option id, leaves the state unchanged and emits
nothing. -/
theorem C6_poll_vote_integrity :
    (∀ cmds, PollInv (run initState cmds).1) ∧
    (∀ (st : ServerState) (sid : String) (pollId optionId : Nat)
       (d : SocketData) (room : Room) (poll : Poll),
      mapGet st.socketData sid = some d →
      mapGet st.rooms d.streamKey = some room →
      room.polls.find? (fun q => q.id == pollId) = some poll →
      (poll.status ≠ "active" ∨ sid ∈ poll.voters ∨
        poll.options.find? (fun o => o.id == optionId) = none) →
      step st (Cmd.votePoll sid pollId optionId) = (st, [])) := by
  refine ⟨pollInv_run, ?_⟩
  intro st sid pollId optionId d room poll hd hroom hpoll hbad
  simp only [step, handleVotePoll, hd]
  by_cases hk : d.streamKey == ""
  · rw [if_pos hk]
  · rw [if_neg hk]
    simp only [hroom, hpoll]
    by_cases hstatus : (poll.status != "active") = true
    · rw [if_pos hstatus]
    · rw [if_neg hstatus]
      by_cases hvoted : (poll.voters.contains sid) = true
      · rw [if_pos hvoted]
      · rw [if_neg hvoted]
        have hopt : poll.options.find? (fun o => o.id == optionId) = none := by
          rcases hbad with hbad | hbad | hbad
          · exact absurd (by simpa using hstatus) (fun hh => hbad hh)
          · exact absurd (by simpa using hbad) (by simpa using hvoted)
          · exact hbad
        simp only [hopt]

/-- Witness for C6 at a concrete input: in a room whose only poll is
closed, a vote by a joined student is rejected without any state change
or event. -/
theorem C6_poll_vote_integrity_witness :
    step (run initState [Cmd.joinRoom "t" "k" "T" "teacher",
        Cmd.createPoll "t" "q" ["A"] none, Cmd.closePoll "t" 0,
        Cmd.joinRoom "s" "k" "u" "student"]).1 (Cmd.votePoll "s" 0 1)
      = ((run initState [Cmd.joinRoom "t" "k" "T" "teacher",
        Cmd.createPoll "t" "q" ["A"] none, Cmd.closePoll "t" 0,
        Cmd.joinRoom "s" "k" "u" "student"]).1, []) := by
  apply C6_poll_vote_integrity.2 _ "s" 0 1 ⟨"k", "u", "student"⟩
    ⟨"k", [("t", ⟨"t", "T", "teacher", 0, false⟩), ("s", ⟨"s", "u", "student", 0, false⟩)],
      [], [⟨0, "q", [⟨1, "A", 0⟩], [], "closed", 0, none⟩], [], false⟩
    ⟨0, "q", [⟨1, "A", 0⟩], [], "closed", 0, none⟩
    (by decide) (by decide) (by decide)
  exact Or.inl (by decide)

/-! ### C7: poll auto-close timer -/

/-- C7 counterexample: on the trace where the teacher closes the poll
before the auto-close deadline, the timer fires anyway, and
`poll-closed` for that poll is emitted twice, not once. -/
theorem C7_autoclose_counterexample :
    ((run initState c7Trace).2.filter (isPollClosedFor "k" 0)).length = 2 := by decide

/-- C7 (amended): a pending due auto-close timer fires at most once —
firing consumes it, and firing without a pending due timer does
nothing — and firing closes the poll; but the firing body emits
`poll-closed` unconditionally, without checking whether the poll is
already closed, so a teacher close before the deadline makes the event
fire a second time. -/
theorem C7_autoclose_amended (st : ServerState) (key : String) (pid : Nat)
    (timer : PollTimer)
    (hfind : st.pollTimers.find? (fun t =>
        t.streamKey == key && t.pollId == pid && decide (t.fireAt ≤ st.now))
      = some timer) :
    (firePollTimer st key pid).2 = [Event.pollClosed key pid] ∧
    (firePollTimer st key pid).1.pollTimers = st.pollTimers.erase timer ∧
    (∀ room, mapGet st.rooms key = some room →
      mapGet (firePollTimer st key pid).1.rooms key
        = some { room with polls := updateFirst (fun q => q.id == pid)
                             (fun q => { q with status := "closed" }) room.polls }) ∧
    (∀ room poll, mapGet st.rooms key = some room →
      room.polls.find? (fun q => q.id == pid) = some poll →
      ∃ room1 poll1, mapGet (firePollTimer st key pid).1.rooms key = some room1 ∧
        room1.polls.find? (fun q => q.id == pid) = some poll1 ∧
        poll1.status = "closed") ∧
    (∀ (st2 : ServerState) (key2 : String) (pid2 : Nat),
      st2.pollTimers.find? (fun t =>
        t.streamKey == key2 && t.pollId == pid2 && decide (t.fireAt ≤ st2.now)) = none →
      firePollTimer st2 key2 pid2 = (st2, [])) := by
  refine ⟨?_, ?_, ?_, ?_, ?_⟩
  · simp only [firePollTimer, hfind]
  · simp only [firePollTimer, hfind]
  · intro room hroom
    simp only [firePollTimer, hfind, hroom]
    exact mapGet_mapSet_self _ _ _
  · intro room poll hroom hpoll
    refine ⟨{ room with polls := updateFirst (fun q => q.id == pid)
                          (fun q => { q with status := "closed" }) room.polls },
      { poll with status := "closed" }, ?_, ?_, rfl⟩
    · simp only [firePollTimer, hfind, hroom]
      exact mapGet_mapSet_self _ _ _
    · show (updateFirst (fun q => q.id == pid)
        (fun q => { q with status := "closed" }) room.polls).find?
          (fun q => q.id == pid) = _
      rw [find?_updateFirst (fun q => q.id == pid)
        (fun q => { q with status := "closed" }) room.polls (fun x => rfl), hpoll]
      rfl
  · intro st2 key2 pid2 hnone
    simp only [firePollTimer, hnone]

/-- Witness for C7 at a concrete input: the timer scheduled at poll
creation is due at t = 5 and its firing emits exactly one `poll-closed`
and consumes the timer. -/
theorem C7_autoclose_amended_witness :
    (firePollTimer (run initState [Cmd.joinRoom "t" "k" "T" "teacher",
        Cmd.createPoll "t" "q" ["A", "B"] (some 5), Cmd.advance 5]).1 "k" 0).2
      = [Event.pollClosed "k" 0] ∧
    (firePollTimer (run initState [Cmd.joinRoom "t" "k" "T" "teacher",
        Cmd.createPoll "t" "q" ["A", "B"] (some 5), Cmd.advance 5]).1 "k" 0).1.pollTimers
      = [] := by
  have h := C7_autoclose_amended (run initState [Cmd.joinRoom "t" "k" "T" "teacher",
      Cmd.createPoll "t" "q" ["A", "B"] (some 5), Cmd.advance 5]).1 "k" 0
    ⟨"k", 0, 5⟩ (by decide)
  exact ⟨h.1, by rw [h.2.1]; decide⟩

/-! ### C8: hand-raise consistency -/

theorem mem_queueIds_filter (l : List HandRaise) (sid a : String) :
    a ∈ (l.filter (fun e => e.socketId != sid)).map (·.socketId) ↔
      a ∈ l.map (·.socketId) ∧ a ≠ sid := by
  simp only [List.mem_map, List.mem_filter, bne_iff_ne]
  constructor
  · rintro ⟨e, ⟨hmem, hne⟩, rfl⟩
    exact ⟨⟨e, hmem, rfl⟩, hne⟩
  · rintro ⟨⟨e, hmem, rfl⟩, hne⟩
    exact ⟨e, ⟨hmem, hne⟩, rfl⟩

theorem roomsHandInv_set (rooms : List (String × Room)) (k : String) (room1 : Room)
    (hInv : RoomsHandInv rooms) (h1 : HandOk room1) :
    RoomsHandInv (mapSet rooms k room1) := by
  intro key room hget
  rcases mapGet_mapSet_cases rooms k key room1 room hget with ⟨hk, hv⟩ | hold
  · exact hv ▸ h1
  · exact hInv key room hold

theorem roomsHandInv_delete (rooms : List (String × Room)) (k : String)
    (hInv : RoomsHandInv rooms) : RoomsHandInv (mapDelete rooms k) :=
  fun key room hget => hInv key room (mapGet_mapDelete_sub _ _ _ _ hget)

/-- Hand-raise consistency only depends on the participants map and the
queue. -/
theorem handOk_congr (room1 room : Room) (hp : room1.participants = room.participants)
    (hq : room1.handRaises = room.handRaises) (h : HandOk room) : HandOk room1 := by
  obtain ⟨h1, h2, h3⟩ := h
  refine ⟨?_, ?_, ?_⟩
  · show (room1.handRaises.map _).Nodup
    rw [hq]
    exact h1
  · intro sid p hget
    rw [hp] at hget
    show _ ↔ sid ∈ room1.handRaises.map _
    rw [hq]
    exact h2 sid p hget
  · intro e he
    rw [hq] at he
    rw [hp]
    exact h3 e he

theorem handOk_createRoom (k : String) : HandOk (createRoom k) := by
  refine ⟨List.nodup_nil, ?_, ?_⟩
  · intro sid p hget
    simp [createRoom, mapGet] at hget
  · intro e hmem
    simp [createRoom] at hmem

/-- Adding a fresh participant with the flag down keeps a room
consistent. -/
theorem handOk_join (room : Room) (sid : String) (p : Participant)
    (hp : p.handRaised = false) (h : HandOk room)
    (hnew : mapGet room.participants sid = none) :
    HandOk { room with participants := mapSet room.participants sid p } := by
  obtain ⟨h1, h2, h3⟩ := h
  have hsidq : sid ∉ queueIds room := by
    intro hq
    rcases List.mem_map.mp hq with ⟨e, he, hesid⟩
    rcases h3 e he with ⟨p', hp', _⟩
    rw [hesid, hnew] at hp'
    cases hp'
  refine ⟨h1, ?_, ?_⟩
  · intro sid' p' hget
    by_cases hs : sid' = sid
    · rw [hs, mapGet_mapSet_self] at hget
      cases hget
      constructor
      · intro hfl
        rw [hp] at hfl
        cases hfl
      · intro hq
        rw [hs] at hq
        exact absurd hq hsidq
    · rw [mapGet_mapSet_ne _ _ _ _ hs] at hget
      exact h2 sid' p' hget
  · intro e he
    rcases h3 e he with ⟨p', hp', hfl⟩
    by_cases hs : e.socketId = sid
    · rw [hs, hnew] at hp'
      cases hp'
    · exact ⟨p', by rw [mapGet_mapSet_ne _ _ _ _ hs]; exact hp', hfl⟩

/-- Raising the hand of a participant whose flag is down keeps a room
consistent: the flag goes up and the id is appended to the queue
tail. -/
theorem handOk_raise (room : Room) (sid username : String) (now : Nat) (p : Participant)
    (h : HandOk room) (hget : mapGet room.participants sid = some p)
    (hfl : p.handRaised = false) :
    HandOk { room with
      participants := mapSet room.participants sid { p with handRaised := true }
      handRaises := room.handRaises ++ [⟨sid, username, now⟩] } := by
  obtain ⟨h1, h2, h3⟩ := h
  have hsidq : sid ∉ queueIds room := by
    intro hq
    have hfl2 := (h2 sid p hget).mpr hq
    rw [hfl] at hfl2
    cases hfl2
  have hqIds : queueIds { room with
      participants := mapSet room.participants sid { p with handRaised := true }
      handRaises := room.handRaises ++ [⟨sid, username, now⟩] }
      = queueIds room ++ [sid] := by
    simp [queueIds]
  refine ⟨?_, ?_, ?_⟩
  · rw [hqIds, List.nodup_append]
    exact ⟨h1, List.nodup_singleton _, List.disjoint_singleton.mpr hsidq⟩
  · intro sid' p' hget'
    rw [hqIds]
    by_cases hs : sid' = sid
    · rw [hs, mapGet_mapSet_self] at hget'
      cases hget'
      rw [hs]
      simp
    · rw [mapGet_mapSet_ne _ _ _ _ hs] at hget'
      rw [List.mem_append]
      constructor
      · intro hf
        exact Or.inl ((h2 sid' p' hget').mp hf)
      · rintro (hq | hq)
        · exact (h2 sid' p' hget').mpr hq
        · exact absurd (List.mem_singleton.mp hq) hs
  · intro e he
    rcases List.mem_append.mp he with he | he
    · rcases h3 e he with ⟨p', hp', hfl'⟩
      by_cases hs : e.socketId = sid
      · rw [hs, hget] at hp'
        cases hp'
        rw [hfl] at hfl'
        cases hfl'
      · exact ⟨p', by rw [mapGet_mapSet_ne _ _ _ _ hs]; exact hp', hfl'⟩
    · obtain rfl := List.mem_singleton.mp he
      exact ⟨{ p with handRaised := true }, by rw [mapGet_mapSet_self], rfl⟩

/-- Lowering a participant's hand keeps a room consistent: the flag
goes down and every entry of the id leaves the queue, order
preserved. -/
theorem handOk_lower (room : Room) (sid : String) (p : Participant)
    (h : HandOk room) (hget : mapGet room.participants sid = some p) :
    HandOk { room with
      participants := mapSet room.participants sid { p with handRaised := false }
      handRaises := room.handRaises.filter (fun e => e.socketId != sid) } := by
  obtain ⟨h1, h2, h3⟩ := h
  refine ⟨?_, ?_, ?_⟩
  · exact List.Nodup.sublist (List.Sublist.map _ (List.filter_sublist _)) h1
  · intro sid' p' hget'
    by_cases hs : sid' = sid
    · rw [hs, mapGet_mapSet_self] at hget'
      cases hget'
      constructor
      · intro hfl
        cases hfl
      · intro hq
        rw [hs] at hq
        rcases (mem_queueIds_filter room.handRaises sid sid).mp hq with ⟨_, hne⟩
        exact absurd rfl hne
    · rw [mapGet_mapSet_ne _ _ _ _ hs] at hget'
      constructor
      · intro hf
        exact (mem_queueIds_filter room.handRaises sid sid').mpr
          ⟨(h2 sid' p' hget').mp hf, hs⟩
      · intro hq
        exact (h2 sid' p' hget').mpr
          ((mem_queueIds_filter room.handRaises sid sid').mp hq).1
  · intro e he
    rw [List.mem_filter] at he
    obtain ⟨hemem, hene⟩ := he
    have hens : e.socketId ≠ sid := by simpa using hene
    rcases h3 e hemem with ⟨p', hp', hfl'⟩
    exact ⟨p', by rw [mapGet_mapSet_ne _ _ _ _ hens]; exact hp', hfl'⟩

/-- Removing a participant together with its queue entries keeps a
room consistent. -/
theorem handOk_disconnect (room : Room) (sid : String) (h : HandOk room) :
    HandOk { room with
      participants := mapDelete room.participants sid
      handRaises := room.handRaises.filter (fun e => e.socketId != sid) } := by
  obtain ⟨h1, h2, h3⟩ := h
  refine ⟨?_, ?_, ?_⟩
  · exact List.Nodup.sublist (List.Sublist.map _ (List.filter_sublist _)) h1
  · intro sid' p' hget'
    have hs : sid' ≠ sid := by
      intro he
      subst he
      rw [mapGet_mapDelete_self] at hget'
      cases hget'
    rw [mapGet_mapDelete_ne _ _ _ hs] at hget'
    constructor
    · intro hf
      exact (mem_queueIds_filter room.handRaises sid sid').mpr
        ⟨(h2 sid' p' hget').mp hf, hs⟩
    · intro hq
      exact (h2 sid' p' hget').mpr
        ((mem_queueIds_filter room.handRaises sid sid').mp hq).1
  · intro e he
    rw [List.mem_filter] at he
    obtain ⟨hemem, hene⟩ := he
    have hens : e.socketId ≠ sid := by simpa using hene
    rcases h3 e hemem with ⟨p', hp', hfl'⟩
    exact ⟨p', by rw [mapGet_mapDelete_ne _ _ _ hens]; exact hp', hfl'⟩

/-- One rejoin-free step preserves hand-raise consistency. -/
theorem handInv_step (st : ServerState) (c : Cmd) (hok : NoRejoin st c)
    (h : HandInv st) : HandInv (step st c).1 := by
  cases c with
  | joinRoom sid streamKey username role =>
    simp only [step, handleJoinRoom]
    split
    · exact h
    · rename_i room hroom
      have h0 : RoomsHandInv (if mapHas st.rooms streamKey then st.rooms
          else mapSet st.rooms streamKey (createRoom streamKey)) := by
        split
        · exact h
        · exact roomsHandInv_set _ _ _ h (handOk_createRoom streamKey)
      have hnew : mapGet room.participants sid = none := by
        by_cases hhas : mapHas st.rooms streamKey
        · rw [if_pos hhas] at hroom
          exact hok room hroom
        · rw [if_neg hhas] at hroom
          rw [mapGet_mapSet_self] at hroom
          cases hroom
          rfl
      exact roomsHandInv_set _ _ _ h0
        (handOk_join room sid _ rfl (h0 _ _ hroom) hnew)
  | chatMessage sid m =>
    simp only [step, handleChatMessage]
    split
    · exact h
    · split
      · exact h
      · split
        · exact h
        · rename_i room hroom
          exact roomsHandInv_set _ _ _ h (handOk_congr _ room rfl rfl (h _ room hroom))
  | createPoll sid question options duration =>
    simp only [step, handleCreatePoll]
    split
    · exact h
    · split
      · exact h
      · split
        · exact h
        · rename_i room hroom
          exact roomsHandInv_set _ _ _ h (handOk_congr _ room rfl rfl (h _ room hroom))
  | votePoll sid pollId optionId =>
    simp only [step, handleVotePoll]
    split
    · exact h
    · split
      · exact h
      · split
        · exact h
        · rename_i d hd room hroom
          split
          · exact h
          · split
            · exact h
            · split
              · exact h
              · split
                · exact h
                · exact roomsHandInv_set _ _ _ h (handOk_congr _ room rfl rfl (h _ room hroom))
  | closePoll sid pollId =>
    simp only [step, handleClosePoll]
    split
    · exact h
    · split
      · exact h
      · split
        · exact h
        · rename_i room hroom
          split
          · exact h
          · split
            · exact roomsHandInv_set _ _ _ h (handOk_congr _ room rfl rfl (h _ room hroom))
            · exact h
  | raiseHand sid =>
    simp only [step, handleRaiseHand]
    split
    · exact h
    · split
      · exact h
      · split
        · exact h
        · rename_i d hd room hroom
          split
          · exact h
          · split
            · exact h
            · rename_i p hp hflag
              exact roomsHandInv_set _ _ _ h
                (handOk_raise room sid _ st.now p (h _ room hroom) hp
                  (by simpa using hflag))
  | lowerHand sid =>
    simp only [step, handleLowerHand]
    split
    · exact h
    · split
      · exact h
      · split
        · exact h
        · rename_i d hd room hroom
          split
          · exact h
          · split
            · rename_i p hp hflag
              exact roomsHandInv_set _ _ _ h
                (handOk_lower room sid p (h _ _ hroom) hp)
            · exact h
  | updateStreamSettings sid b =>
    simp only [step, handleUpdateStreamSettings]
    split
    · exact h
    · split
      · exact h
      · split
        · exact h
        · rename_i room hroom
          exact roomsHandInv_set _ _ _ h (handOk_congr _ room rfl rfl (h _ room hroom))
  | typing sid b =>
    simp only [step, handleTyping]
    split
    · exact h
    · split
      · exact h
      · exact h
  | disconnect sid =>
    simp only [step, handleDisconnect]
    split
    · exact h
    · split
      · exact h
      · split
        · exact h
        · rename_i room hroom
          split
          · exact roomsHandInv_delete _ _ h
          · exact roomsHandInv_set _ _ _ h (handOk_disconnect room sid (h _ _ hroom))
  | postPublish path ip =>
    simp only [step, handlePostPublish]
    split
    · exact h
    · exact h
  | donePublish path =>
    simp only [step, handleDonePublish]
    split
    · exact h
    · exact h
  | pollTimerFire streamKey pollId =>
    simp only [step, firePollTimer]
    split
    · exact h
    · split
      · rename_i room hroom
        exact roomsHandInv_set _ _ _ h (handOk_congr _ room rfl rfl (h _ room hroom))
      · exact h
  | killTimerFire pid => exact h
  | advance d => exact h

/-- Hand-raise consistency holds along every rejoin-free trace. -/
theorem handInv_okTrace (cmds : List Cmd) :
    ∀ st, HandInv st → OkTrace st cmds → HandInv (run st cmds).1 := by
  induction cmds with
  | nil => intro st h _; exact h
  | cons c cs ih =>
    intro st h hok
    exact ih _ (handInv_step st c hok.1 h) hok.2

/-- C8 counterexample: after join, raise-hand, and a second join of the
same connection to the same room, the overwritten participant record
has `handRaised = false` while the queue still holds the id — the claim
fails in this reachable state. A further raise then queues the id a
second time. -/
theorem C8_rejoin_counterexample :
    mapGet (run initState c8Trace).1.rooms "k" = some c8Room ∧
    mapGet c8Room.participants "s" = some ⟨"s", "u", "student", 0, false⟩ ∧
    queueIds c8Room = ["s"] ∧
    queueIds ((mapGet (run initState c8TraceDup).1.rooms "k").getD (createRoom "k"))
      = ["s", "s"] := by decide

/-- C8 (amended): along every trace in which no already-joined
connection re-joins its room, every room satisfies: the queue holds no
socket id twice, a participant's flag is set exactly when its id is
queued, and every queue entry belongs to a flagged participant.
Raise-hand of an unraised participant appends exactly one entry at the
queue tail, and lower-hand removes exactly that connection's entries,
keeping the relative order of the rest. -/
theorem C8_hand_raise_corrected :
    (∀ cmds, OkTrace initState cmds → HandInv (run initState cmds).1) ∧
    (∀ (st : ServerState) (sid : String) (d : SocketData) (room : Room) (p : Participant),
      mapGet st.socketData sid = some d → d.streamKey ≠ "" →
      mapGet st.rooms d.streamKey = some room →
      mapGet room.participants sid = some p → p.handRaised = false →
      mapGet (step st (Cmd.raiseHand sid)).1.rooms d.streamKey
        = some { room with
                 participants := mapSet room.participants sid { p with handRaised := true }
                 handRaises := room.handRaises ++ [⟨sid, d.username, st.now⟩] }) ∧
    (∀ (st : ServerState) (sid : String) (d : SocketData) (room : Room) (p : Participant),
      mapGet st.socketData sid = some d → d.streamKey ≠ "" →
      mapGet st.rooms d.streamKey = some room →
      mapGet room.participants sid = some p → p.handRaised = true →
      mapGet (step st (Cmd.lowerHand sid)).1.rooms d.streamKey
        = some { room with
                 participants := mapSet room.participants sid { p with handRaised := false }
                 handRaises := room.handRaises.filter (fun e => e.socketId != sid) }) := by
  refine ⟨?_, ?_, ?_⟩
  · intro cmds hok
    exact handInv_okTrace cmds initState
      (fun key room hget => by simp [initState, mapGet] at hget) hok
  · intro st sid d room p hd hkey hroom hget hflag
    have hkb : (d.streamKey == "") = false := by simpa using hkey
    simp only [step, handleRaiseHand, hd, hkb, Bool.false_eq_true, if_false, hroom,
      hget, hflag]
    exact mapGet_mapSet_self _ _ _
  · intro st sid d room p hd hkey hroom hget hflag
    have hkb : (d.streamKey == "") = false := by simpa using hkey
    simp only [step, handleLowerHand, hd, hkb, Bool.false_eq_true, if_false, hroom,
      hget, hflag, if_true]
    exact mapGet_mapSet_self _ _ _

/-- Witness for C8 at a concrete input: the join-then-raise trace is
rejoin-free, so the reached state is consistent; and the raise and
lower steps produce exactly the appended and the filtered queue. -/
theorem C8_hand_raise_corrected_witness :
    HandInv (run initState [Cmd.joinRoom "s" "k" "u" "student", Cmd.raiseHand "s"]).1 ∧
    mapGet (step (run initState [Cmd.joinRoom "s" "k" "u" "student"]).1
        (Cmd.raiseHand "s")).1.rooms "k"
      = some ⟨"k", [("s", ⟨"s", "u", "student", 0, true⟩)], [], [], [⟨"s", "u", 0⟩], false⟩ ∧
    mapGet (step (run initState [Cmd.joinRoom "s" "k" "u" "student", Cmd.raiseHand "s"]).1
        (Cmd.lowerHand "s")).1.rooms "k"
      = some ⟨"k", [("s", ⟨"s", "u", "student", 0, false⟩)], [], [], [], false⟩ := by
  refine ⟨C8_hand_raise_corrected.1 _ ?_, ?_, ?_⟩
  · refine ⟨?_, trivial, trivial⟩
    intro room hroom
    simp [initState, mapGet] at hroom
  · exact C8_hand_raise_corrected.2.1 (run initState [Cmd.joinRoom "s" "k" "u" "student"]).1
      "s" ⟨"k", "u", "student"⟩
      ⟨"k", [("s", ⟨"s", "u", "student", 0, false⟩)], [], [], [], false⟩
      ⟨"s", "u", "student", 0, false⟩ (by decide) (by decide) (by decide) (by decide) rfl
  · exact C8_hand_raise_corrected.2.2 (run initState [Cmd.joinRoom "s" "k" "u" "student",
        Cmd.raiseHand "s"]).1
      "s" ⟨"k", "u", "student"⟩
      ⟨"k", [("s", ⟨"s", "u", "student", 0, true⟩)], [], [], [⟨"s", "u", 0⟩], false⟩
      ⟨"s", "u", "student", 0, true⟩ (by decide) (by decide) (by decide) (by decide) rfl

end LiveStream
